import Mathlib

/-!
Shallow embedding of the Uniswap reconciliation module
(`rotkehlchen/chain/ethereum/uniswap/uniswap.py`).

Conventions of the embedding:
* `FVal` / `AssetAmount` / `Price` decimal amounts are modelled as `ℚ`;
  the constant `ZERO` is `0`.
* Ethereum addresses (`ChecksumEthAddress`) and `Timestamp` values are
  modelled as `Nat` identities.
* Python code that can raise (`swaps[0]` / `swaps[-1]` on an empty list,
  division by a zero amount) is embedded with `Except DerivationError`.
* Python dictionaries are modelled as functions into `Option`, Python
  sets as `Finset`.
-/

abbrev Addr := Nat

inductive TradeType where
  | buy
  | sell
  deriving DecidableEq, Repr

/-- Resolved token identity (`rotkehlchen.assets.asset.EthereumToken`).
The `identifier` field plays the role of the asset identifier used as the
symbol when a known token is reclassified as unknown. -/
structure EthereumToken where
  ethereum_address : Addr
  identifier : String
  name : String
  decimals : Nat
  deriving DecidableEq, Repr

/-- Unresolved token identity (`rotkehlchen.assets.unknown_asset.UnknownEthereumToken`). -/
structure UnknownEthereumToken where
  ethereum_address : Addr
  symbol : String
  name : String
  decimals : Nat
  deriving DecidableEq, Repr

/-- The `Union[EthereumToken, UnknownEthereumToken]` asset type used throughout the module. -/
inductive UniAsset where
  | known (t : EthereumToken)
  | unknown (t : UnknownEthereumToken)
  deriving DecidableEq, Repr

/-- Common address accessor of the two asset variants. -/
def UniAsset.ethereum_address : UniAsset → Addr
  | .known t => t.ethereum_address
  | .unknown t => t.ethereum_address

/-- One swap event (`rotkehlchen.chain.ethereum.trades.AMMSwap`), restricted to the
fields the Uniswap module reads. -/
structure AMMSwap where
  tx_hash : String
  log_index : Nat
  address : Addr
  timestamp : Nat
  token0 : UniAsset
  token1 : UniAsset
  amount0_in : ℚ
  amount1_in : ℚ
  amount0_out : ℚ
  amount1_out : ℚ
  deriving DecidableEq, Repr

/-- One derived trade (`rotkehlchen.chain.ethereum.trades.AMMTrade`). -/
structure AMMTrade where
  trade_type : TradeType
  base_asset : UniAsset
  quote_asset : UniAsset
  amount : ℚ
  rate : ℚ
  swaps : List AMMSwap
  trade_index : Nat
  deriving DecidableEq, Repr

/-- Failure modes of the Python derivation code: `swaps[0]` / `swaps[-1]` on an
empty list raises `IndexError`, and dividing by a zero decimal amount raises a
division error. -/
inductive DerivationError where
  | indexError
  | zeroDivisionError
  deriving DecidableEq, Repr

/-- Loop body of `add_trades_from_swaps` (uniswap.py lines 62-76): one trade per
quote leg, `rate = bought_amount / sold_amount`, `trade_index` incremented after
each appended trade.  A zero `sold_amount` is the reachable division error. -/
def addTradesLoop (swaps : List AMMSwap) (bought_amount : ℚ) (token : UniAsset) :
    List (UniAsset × ℚ) → List AMMTrade → Nat → Except DerivationError (List AMMTrade)
  | [], trades, _ => .ok trades
  | (quote_asset, sold_amount) :: rest, trades, trade_index =>
    if sold_amount = 0 then .error .zeroDivisionError
    else
      addTradesLoop swaps bought_amount token rest
        (trades ++ [{ trade_type := .buy, base_asset := token, quote_asset := quote_asset,
                      amount := bought_amount, rate := bought_amount / sold_amount,
                      swaps := swaps, trade_index := trade_index }])
        (trade_index + 1)

/-- Embedding of `add_trades_from_swaps` (uniswap.py lines 52-78): the bought
amount is halved when `both_in` holds, then one trade is appended per quote leg. -/
def add_trades_from_swaps (swaps : List AMMSwap) (trades : List AMMTrade) (both_in : Bool)
    (quote_assets : List (UniAsset × ℚ)) (token_amount : ℚ) (token : UniAsset)
    (trade_index : Nat) : Except DerivationError (List AMMTrade) :=
  let bought_amount := if both_in then token_amount / 2 else token_amount
  addTradesLoop swaps bought_amount token quote_assets trades trade_index

/-- Quote-leg selection of `Uniswap._tx_swaps_to_trades` (uniswap.py lines 294-302),
computed from the first swap of the group: both inbound amounts (halved when
`both_out`), else the positive one, else the `(token1, amount1_in)` fallback. -/
def select_quote_assets (first : AMMSwap) (both_in both_out : Bool) : List (UniAsset × ℚ) :=
  if both_in then
    [(first.token0, if both_out then first.amount0_in / 2 else first.amount0_in),
     (first.token1, if both_out then first.amount1_in / 2 else first.amount1_in)]
  else if 0 < first.amount0_in then
    [(first.token0, first.amount0_in)]
  else
    [(first.token1, first.amount1_in)]

/-- Embedding of `Uniswap._tx_swaps_to_trades` (uniswap.py lines 272-327).
`swaps.head?` / `swaps.getLast?` play the role of `swaps[0]` / `swaps[-1]`;
the empty group is the `IndexError` case.  After the token0-out branch the code
runs `trade_index += len(trades)` with `trades` freshly built, which equals
`trades.length` here. -/
def tx_swaps_to_trades (swaps : List AMMSwap) : Except DerivationError (List AMMTrade) :=
  match swaps.head?, swaps.getLast? with
  | some first, some last =>
    let both_in : Bool := decide (0 < first.amount0_in) && decide (0 < first.amount1_in)
    let both_out : Bool := decide (0 < last.amount0_out) && decide (0 < last.amount1_out)
    let quote_assets := select_quote_assets first both_in both_out
    let step0 : Except DerivationError (List AMMTrade) :=
      if 0 < last.amount0_out then
        add_trades_from_swaps swaps [] both_in quote_assets last.amount0_out last.token0 0
      else
        .ok []
    match step0 with
    | .error e => .error e
    | .ok trades =>
      if 0 < last.amount1_out then
        add_trades_from_swaps swaps trades both_in quote_assets last.amount1_out last.token1
          trades.length
      else
        .ok trades
  | _, _ => .error .indexError

/-- Comparator of the Python sort
`swaps.sort(key=lambda trade: (trade.timestamp, -trade.log_index), reverse=True)`
(uniswap.py line 423): `swapSortPrec a b` holds when `a` may come before `b`,
i.e. the key of `a` is lexicographically at least the key of `b`
(descending timestamp, ascending log index within equal timestamps). -/
def swapSortPrec (a b : AMMSwap) : Bool :=
  decide (b.timestamp < a.timestamp) ||
    (decide (a.timestamp = b.timestamp) && decide (a.log_index ≤ b.log_index))

/-- Stable insertion of a swap into an already sorted list: the new element is
placed after every element that may precede it, so equal keys keep their
original relative order exactly as in Python's stable sort. -/
def insertSwap (x : AMMSwap) : List AMMSwap → List AMMSwap
  | [] => [x]
  | y :: ys => if swapSortPrec y x then y :: insertSwap x ys else x :: y :: ys

/-- Stable sort by `(timestamp, -log_index)` descending.  Python's `list.sort` is
stable for this key, and the stably sorted permutation for a fixed total preorder
is unique, so stable insertion sort produces the same list. -/
def sortSwaps (swaps : List AMMSwap) : List AMMSwap :=
  swaps.foldl (fun acc x => insertSwap x acc) []

/-- Grouping loop of `Uniswap.swaps_to_trades` (uniswap.py lines 424-435) after the
first swap has been consumed: a hash change flushes the current group, and the
trailing `if len(current_swaps) != 0` flush closes the last group. -/
def groupLoop : List AMMSwap → String → List AMMSwap → List (List AMMSwap)
  | [], _, current => if current.length ≠ 0 then [current] else []
  | w :: rest, last_tx_hash, current =>
    if w.tx_hash ≠ last_tx_hash then
      current :: groupLoop rest w.tx_hash [w]
    else
      groupLoop rest w.tx_hash (current ++ [w])

/-- Per-transaction groups produced by the loop of `Uniswap.swaps_to_trades`, with
`last_tx_hash` seeded from `swaps[0].tx_hash` and an empty running group. -/
def swapGroups : List AMMSwap → List (List AMMSwap)
  | [] => []
  | s :: rest => groupLoop rest s.tx_hash [s]

/-- The `trades.extend(Uniswap._tx_swaps_to_trades(...))` accumulation over the
produced groups, propagating a raised error. -/
def extendTrades : List (List AMMSwap) → List AMMTrade → Except DerivationError (List AMMTrade)
  | [], trades => .ok trades
  | g :: gs, trades =>
    match tx_swaps_to_trades g with
    | .error e => .error e
    | .ok ts => extendTrades gs (trades ++ ts)

/-- Embedding of `Uniswap.swaps_to_trades` (uniswap.py lines 416-436): early return
on the empty list, then sort, group by consecutive transaction hash, and derive
trades per group. -/
def swaps_to_trades (swaps : List AMMSwap) : Except DerivationError (List AMMTrade) :=
  if swaps.isEmpty then .ok []
  else extendTrades (swapGroups (sortSwaps swaps)) []

/-- Decidable equality for `Except`, used to evaluate the embedding on concrete inputs. -/
instance instDecEqExcept {e a : Type} [DecidableEq e] [DecidableEq a] :
    DecidableEq (Except e a)
  | .error x, .error y =>
    if h : x = y then .isTrue (by rw [h]) else .isFalse (fun hh => h (Except.error.inj hh))
  | .error _, .ok _ => .isFalse (fun hh => Except.noConfusion hh)
  | .ok _, .error _ => .isFalse (fun hh => Except.noConfusion hh)
  | .ok x, .ok y =>
    if h : x = y then .isTrue (by rw [h]) else .isFalse (fun hh => h (Except.ok.inj hh))

/-- Persisted used-query ranges, one per address: the module's range-store key is
`f'{UNISWAP_TRADES_PREFIX}_{address}'`, i.e. a bijective image of the address, so the
store is modelled as a map from addresses to optional `(start_ts, end_ts)` pairs. -/
abbrev RangeStore : Type := Addr → Option (Nat × Nat)

/-- One invocation of `Uniswap._get_trades_graph` recorded with its address batch and
window, so that the guard behaviour of `_get_trades` is observable. -/
structure FetchCall where
  addresses : List Addr
  start_ts : Nat
  end_ts : Nat
  deriving DecidableEq, Repr

/-- Partition loop of `Uniswap._get_trades` (uniswap.py lines 346-354): addresses
without a persisted range are new, the rest are existing, and `min_end_ts` starts at
`to_timestamp` and takes the minimum with every persisted `end_ts` seen. -/
def partitionLoop (ranges : RangeStore) :
    List Addr → List Addr → List Addr → Nat → List Addr × List Addr × Nat
  | [], new_addresses, existing_addresses, min_end_ts =>
    (new_addresses, existing_addresses, min_end_ts)
  | a :: rest, new_addresses, existing_addresses, min_end_ts =>
    match ranges a with
    | none => partitionLoop ranges rest (new_addresses ++ [a]) existing_addresses min_end_ts
    | some r =>
      partitionLoop ranges rest new_addresses (existing_addresses ++ [a]) (min min_end_ts r.2)

/-- Range-store effect of one `Uniswap._get_trades` call (uniswap.py lines 339-391):
the new-address batch is fetched over `[0, to_timestamp]` and committed, then the
existing-address batch is fetched over `[min_end_ts, to_timestamp]` and committed
when `existing_addresses` is non-empty and `min_end_ts <= to_timestamp`.  The first
component lists the issued `_get_trades_graph` fetches in order. -/
def getTradesRangeStep (ranges : RangeStore) (addresses : List Addr) (to_timestamp : Nat) :
    List FetchCall × RangeStore :=
  let p := partitionLoop ranges addresses [] [] to_timestamp
  let new_addresses := p.1
  let existing_addresses := p.2.1
  let min_end_ts := p.2.2
  let afterNew : List FetchCall × RangeStore :=
    if new_addresses ≠ [] then
      ([{ addresses := new_addresses, start_ts := 0, end_ts := to_timestamp }],
       fun a => if a ∈ new_addresses then some (0, to_timestamp) else ranges a)
    else
      ([], ranges)
  if existing_addresses ≠ [] ∧ min_end_ts ≤ to_timestamp then
    (afterNew.1 ++
       [{ addresses := existing_addresses, start_ts := min_end_ts, end_ts := to_timestamp }],
     fun a => if a ∈ existing_addresses then some (min_end_ts, to_timestamp) else afterNew.2 a)
  else
    afterNew

/-- Range-store state after a sequence of `_get_trades` calls for a fixed address
list, one `to_timestamp` per call. -/
def runCalls (addrs : List Addr) : RangeStore → List Nat → RangeStore
  | r, [] => r
  | r, t :: ts => runCalls addrs ((getTradesRangeStep r addrs t).2) ts

/-- Modelled from the spec: the fixed page size `L` (`GRAPH_QUERY_LIMIT`, imported
from `rotkehlchen.chain.ethereum.graph` which is not under `src/`); rotki uses one
thousand, and all pagination facts below hold for the fixed value. -/
def GRAPH_QUERY_LIMIT : Nat := 1000

/-- Shared `while True` pagination pattern of `_get_balances_graph`,
`_get_trades_graph_for_address` and `_get_unknown_asset_price_graph`: fetch the page
at the current offset, process each of its records in order into the accumulator,
stop on a page strictly shorter than `L`, otherwise advance the offset by `L`.
The `fuel` argument totalises the `while True` loop; `none` means the fuel was
exhausted before a short page appeared. -/
def paginateFold {Rec St : Type} (L : Nat) (fetch : Nat → List Rec) (upd : St → Rec → St) :
    Nat → Nat → St → Option St
  | 0, _, _ => none
  | fuel + 1, offset, s =>
    let page := fetch offset
    let s2 := page.foldl upd s
    if page.length < L then some s2
    else paginateFold L fetch upd fuel (offset + L) s2

/-- Balance of one position (`rotkehlchen.accounting.structures.Balance`): a token
amount and its USD value (the USD value defaults to zero at construction). -/
structure Balance where
  amount : ℚ
  usd_value : ℚ
  deriving DecidableEq, Repr

/-- Underlying asset entry of a pool (`LiquidityPoolAsset` from the module's typing):
`usd_price` defaults to zero and is filled in by the reconciler. -/
structure LiquidityPoolAsset where
  asset : UniAsset
  total_amount : ℚ
  user_balance : Balance
  usd_price : ℚ
  deriving DecidableEq, Repr

/-- One liquidity pool position (`LiquidityPool` from the module's typing). -/
structure LiquidityPool where
  address : Addr
  assets : List LiquidityPoolAsset
  total_supply : ℚ
  user_balance : Balance
  deriving DecidableEq, Repr

/-- Accumulator of `Uniswap._get_balances_graph`: the defaultdict from user address
to pools plus the known/unknown asset classification sets. -/
structure ProtocolBalanceState where
  address_balances : Addr → List LiquidityPool
  known_assets : Finset EthereumToken
  unknown_assets : Finset UnknownEthereumToken

/-- One record of a `liquidityPositions` page after the external parsing
collaborators (`to_checksum_address`, `FVal`, `get_ethereum_token`) have run:
the position's user address and the constructed pool. -/
structure LPPositionRecord where
  user : Addr
  pool : LiquidityPool

/-- Classification of a pool's parsed assets into the known/unknown sets
(uniswap.py lines 163-176): each resolved token joins `known_assets`, each
unresolved one joins `unknown_assets`. -/
def classifyAssets :
    List LiquidityPoolAsset → Finset EthereumToken → Finset UnknownEthereumToken →
    Finset EthereumToken × Finset UnknownEthereumToken
  | [], ka, ua => (ka, ua)
  | a :: rest, ka, ua =>
    match a.asset with
    | .known t => classifyAssets rest (insert t ka) ua
    | .unknown t => classifyAssets rest ka (insert t ua)

/-- Per-record body of the `_get_balances_graph` loop (uniswap.py lines 148-197):
classify the pool's two assets and append the pool under its user address. -/
def balancesUpd (s : ProtocolBalanceState) (r : LPPositionRecord) : ProtocolBalanceState :=
  let cls := classifyAssets r.pool.assets s.known_assets s.unknown_assets
  { address_balances := fun a =>
      if a = r.user then s.address_balances a ++ [r.pool] else s.address_balances a,
    known_assets := cls.1,
    unknown_assets := cls.2 }

/-- Pagination loop of `Uniswap._get_balances_graph` (uniswap.py lines 140-207). -/
def get_balances_graph_loop (fetch : Nat → List LPPositionRecord) (fuel : Nat) :
    Option ProtocolBalanceState :=
  paginateFold GRAPH_QUERY_LIMIT fetch balancesUpd fuel 0
    { address_balances := fun _ => [], known_assets := ∅, unknown_assets := ∅ }

/-- Per-record body of the `_get_trades_graph_for_address` loop (uniswap.py lines
497-536): each record carries one transaction's parsed swaps and extends the trade
list through `_tx_swaps_to_trades`; a raised derivation error is absorbed into the
accumulator and propagated to the final result. -/
def tradesUpd (s : Except DerivationError (List AMMTrade)) (txswaps : List AMMSwap) :
    Except DerivationError (List AMMTrade) :=
  match s with
  | .error e => .error e
  | .ok trades =>
    match tx_swaps_to_trades txswaps with
    | .error e => .error e
    | .ok ts => .ok (trades ++ ts)

/-- Pagination loop of `Uniswap._get_trades_graph_for_address` (uniswap.py lines
490-547), over pages of per-transaction swap groups parsed by the external
collaborators. -/
def get_trades_graph_for_address_loop (fetch : Nat → List (List AMMSwap)) (fuel : Nat) :
    Option (Except DerivationError (List AMMTrade)) :=
  paginateFold GRAPH_QUERY_LIMIT fetch tradesUpd fuel 0 (.ok [])

/-- Per-record body of the `_get_unknown_asset_price_graph` loop (uniswap.py lines
591-593): store the record's parsed USD price under its token address. -/
def priceUpd (asset_price : Addr → Option ℚ) (entry : Addr × ℚ) : Addr → Option ℚ :=
  fun a => if a = entry.1 then some entry.2 else asset_price a

/-- Pagination loop of `Uniswap._get_unknown_asset_price_graph` (uniswap.py lines
583-603). -/
def get_unknown_asset_price_graph_loop (fetch : Nat → List (Addr × ℚ)) (fuel : Nat) :
    Option (Addr → Option ℚ) :=
  paginateFold GRAPH_QUERY_LIMIT fetch priceUpd fuel 0 (fun _ => none)

/-- Construction of the `UnknownEthereumToken` that `_get_known_asset_price` builds
from a zero-priced known asset (uniswap.py lines 261-266). -/
def unknownize (t : EthereumToken) : UnknownEthereumToken :=
  { ethereum_address := t.ethereum_address, symbol := t.identifier,
    name := t.name, decimals := t.decimals }

/-- Embedding of `Uniswap._get_known_asset_price` (uniswap.py lines 242-269): the
iteration order over the Python set is made explicit by taking `known_assets` as a
list.  A non-zero primary price is recorded in the returned price map; a zero price
adds the rebuilt unknown token to `unknown_assets`.  The `known_assets` input is
never modified by the Python code, so it does not appear in the result. -/
def get_known_asset_price :
    List EthereumToken → Finset UnknownEthereumToken → (EthereumToken → ℚ) →
    List (Addr × ℚ) × Finset UnknownEthereumToken
  | [], unknown_assets, _ => ([], unknown_assets)
  | t :: rest, unknown_assets, price_query =>
    if price_query t ≠ 0 then
      let res := get_known_asset_price rest unknown_assets price_query
      ((t.ethereum_address, price_query t) :: res.1, res.2)
    else
      get_known_asset_price rest (insert (unknownize t) unknown_assets) price_query

/-- The price lookup of `_update_assets_prices_in_address_balances` (uniswap.py lines
623-626): `known_asset_price.get(addr, unknown_asset_price.get(addr, Price(ZERO)))`. -/
def lookupAssetPrice (known unknown : Addr → Option ℚ) (a : Addr) : ℚ :=
  (known a).getD ((unknown a).getD 0)

/-- Per-asset body of `_update_assets_prices_in_address_balances` (uniswap.py lines
621-632): with a non-zero looked-up price the asset's price and USD value are
replaced, otherwise the asset is left untouched. -/
def updateLPAsset (known unknown : Addr → Option ℚ) (asset : LiquidityPoolAsset) :
    LiquidityPoolAsset :=
  let asset_usd_price := lookupAssetPrice known unknown asset.asset.ethereum_address
  if asset_usd_price ≠ 0 then
    { asset with
      usd_price := asset_usd_price,
      user_balance := { asset.user_balance with
                        usd_value := asset.user_balance.amount * asset_usd_price } }
  else
    asset

/-- Per-pool body of `_update_assets_prices_in_address_balances` (uniswap.py lines
617-637): update every asset, accumulate `total_user_balance` over the (possibly
updated) per-asset USD values, and write it as the pool's USD value. -/
def updateLP (known unknown : Addr → Option ℚ) (lp : LiquidityPool) : LiquidityPool :=
  let assets2 := lp.assets.map (updateLPAsset known unknown)
  let total := assets2.foldl (fun acc a => acc + a.user_balance.usd_value) 0
  { lp with assets := assets2,
            user_balance := { lp.user_balance with usd_value := total } }

/-- Embedding of `Uniswap._update_assets_prices_in_address_balances` (uniswap.py
lines 607-637); the in-place mutation is expressed as a rebuilt mapping. -/
def update_assets_prices_in_address_balances
    (address_balances : List (Addr × List LiquidityPool))
    (known unknown : Addr → Option ℚ) : List (Addr × List LiquidityPool) :=
  address_balances.map (fun e => (e.1, e.2.map (updateLP known unknown)))

/-- Concrete single-sided swap used to instantiate the single-sided derivation claim:
`amount0_in = 100`, `amount1_out = 40`, the other legs zero. -/
def swapC1 : AMMSwap :=
  { tx_hash := "0xc1", log_index := 0, address := 900, timestamp := 100,
    token0 := .known { ethereum_address := 1, identifier := "A", name := "AssetA", decimals := 18 },
    token1 := .known { ethereum_address := 2, identifier := "B", name := "AssetB", decimals := 18 },
    amount0_in := 100, amount1_in := 0, amount0_out := 0, amount1_out := 40 }

/-- Concrete both-in/both-out swap: `amount0_in = 10`, `amount1_in = 20`,
`amount0_out = 6`, `amount1_out = 3`. -/
def swapC2 : AMMSwap :=
  { tx_hash := "0xc2", log_index := 0, address := 900, timestamp := 100,
    token0 := .known { ethereum_address := 1, identifier := "A", name := "AssetA", decimals := 18 },
    token1 := .known { ethereum_address := 2, identifier := "B", name := "AssetB", decimals := 18 },
    amount0_in := 10, amount1_in := 20, amount0_out := 6, amount1_out := 3 }

/-- Concrete grouping-order swap `(tx=A, ts=10, log=2)`. -/
def swapC3A2 : AMMSwap :=
  { tx_hash := "A", log_index := 2, address := 900, timestamp := 10,
    token0 := .known { ethereum_address := 1, identifier := "A", name := "AssetA", decimals := 18 },
    token1 := .known { ethereum_address := 2, identifier := "B", name := "AssetB", decimals := 18 },
    amount0_in := 1, amount1_in := 0, amount0_out := 0, amount1_out := 1 }

/-- Concrete grouping-order swap `(tx=A, ts=10, log=1)`. -/
def swapC3A1 : AMMSwap := { swapC3A2 with log_index := 1 }

/-- Concrete grouping-order swap `(tx=B, ts=5, log=0)`. -/
def swapC3B0 : AMMSwap := { swapC3A2 with tx_hash := "B", log_index := 0, timestamp := 5 }

/-- Concrete malformed swap for the zero-division claim: both first-swap inbound
amounts are zero while the last-swap outbound `amount1_out = 5` is positive. -/
def swapC4 : AMMSwap :=
  { tx_hash := "0xc4", log_index := 0, address := 900, timestamp := 100,
    token0 := .known { ethereum_address := 1, identifier := "A", name := "AssetA", decimals := 18 },
    token1 := .known { ethereum_address := 2, identifier := "B", name := "AssetB", decimals := 18 },
    amount0_in := 0, amount1_in := 0, amount0_out := 0, amount1_out := 5 }

/-- Concrete range store holding the persisted range `(0, 100)` for address `7`. -/
def rC6 : RangeStore := fun a => if a = 7 then some (0, 100) else none

/-- Concrete known token for the reclassification claim. -/
def tokC8 : EthereumToken :=
  { ethereum_address := 1, identifier := "TKN", name := "TokenC8", decimals := 18 }

/-- Concrete pre-existing unknown token for the reclassification claim. -/
def unkC8 : UnknownEthereumToken :=
  { ethereum_address := 9, symbol := "UNK", name := "UnknownC8", decimals := 18 }

/-- Concrete pool asset for the USD-aggregation claim. -/
def assetC9 : LiquidityPoolAsset :=
  { asset := .known { ethereum_address := 1, identifier := "T", name := "TokenC9", decimals := 18 },
    total_amount := 7, user_balance := { amount := 3, usd_value := 0 }, usd_price := 0 }

/-- Concrete pool for the USD-aggregation claim. -/
def poolC9 : LiquidityPool :=
  { address := 5, assets := [assetC9], total_supply := 2,
    user_balance := { amount := 4, usd_value := 0 } }

/-- Concrete known-price map for the USD-aggregation claim: address `1` has price `2`. -/
def knownC9 : Addr → Option ℚ := fun a => if a = 1 then some 2 else none

/-- Concrete swap exercising the grouping totality claim. -/
def swapC10 : AMMSwap :=
  { tx_hash := "0xca", log_index := 3, address := 900, timestamp := 50,
    token0 := .known { ethereum_address := 1, identifier := "A", name := "AssetA", decimals := 18 },
    token1 := .known { ethereum_address := 2, identifier := "B", name := "AssetB", decimals := 18 },
    amount0_in := 4, amount1_in := 0, amount0_out := 0, amount1_out := 2 }

/-- C1 (amended): a transaction group of one swap with `amount0_in = 100`,
`amount1_out = 40`, `amount0_out = 0`, `amount1_in = 0` yields exactly one trade
with base asset `token1`, quote asset `token0`, bought amount `40`, and
`rate = 40/100 = 0.4` (the code computes `rate = bought_amount / sold_amount`). -/
theorem uniswap_single_sided_derivation (s : AMMSwap) (h0i : s.amount0_in = 100)
    (h1i : s.amount1_in = 0) (h0o : s.amount0_out = 0) (h1o : s.amount1_out = 40) :
    tx_swaps_to_trades [s] =
      .ok [{ trade_type := .buy, base_asset := s.token1, quote_asset := s.token0,
             amount := 40, rate := 2/5, swaps := [s], trade_index := 0 }] := by
  norm_num [tx_swaps_to_trades, h0i, h1i, h0o, h1o, select_quote_assets,
    add_trades_from_swaps, addTradesLoop]

/-- C1 witness: the single-sided derivation evaluated on the concrete swap. -/
theorem uniswap_single_sided_derivation_witness :
    tx_swaps_to_trades [swapC1] =
      .ok [{ trade_type := .buy, base_asset := swapC1.token1, quote_asset := swapC1.token0,
             amount := 40, rate := 2/5, swaps := [swapC1], trade_index := 0 }] :=
  uniswap_single_sided_derivation swapC1 rfl rfl rfl rfl

/-- C1 counterexample: on the concrete single-sided swap the produced trade's rate
is `40/100 = 2/5`, not `100/40 = 5/2` as the claim states. -/
theorem uniswap_single_sided_rate_cex :
    tx_swaps_to_trades [swapC1] =
      .ok [{ trade_type := .buy, base_asset := swapC1.token1, quote_asset := swapC1.token0,
             amount := 40, rate := 2/5, swaps := [swapC1], trade_index := 0 }] ∧
    (2/5 : ℚ) ≠ 5/2 := by
  constructor
  · norm_num [tx_swaps_to_trades, swapC1, select_quote_assets,
      add_trades_from_swaps, addTradesLoop]
  · norm_num

/-- C2: a transaction group whose first swap has `amount0_in = 10`, `amount1_in = 20`
and whose last swap has `amount0_out = 6`, `amount1_out = 3` yields exactly four
trades, bought amounts halved (3, 3, 3/2, 3/2), quote sold amounts halved (5 and 10,
visible in the rates 3/5, 3/10, 3/10, 3/20), trade indices 0..3 in base-leg-major
order (token0-based trades first). -/
theorem uniswap_both_in_both_out_split (swaps : List AMMSwap) (first last : AMMSwap)
    (hh : swaps.head? = some first) (hl : swaps.getLast? = some last)
    (h0i : first.amount0_in = 10) (h1i : first.amount1_in = 20)
    (h0o : last.amount0_out = 6) (h1o : last.amount1_out = 3) :
    tx_swaps_to_trades swaps = .ok
      [{ trade_type := .buy, base_asset := last.token0, quote_asset := first.token0,
         amount := 3, rate := 3/5, swaps := swaps, trade_index := 0 },
       { trade_type := .buy, base_asset := last.token0, quote_asset := first.token1,
         amount := 3, rate := 3/10, swaps := swaps, trade_index := 1 },
       { trade_type := .buy, base_asset := last.token1, quote_asset := first.token0,
         amount := 3/2, rate := 3/10, swaps := swaps, trade_index := 2 },
       { trade_type := .buy, base_asset := last.token1, quote_asset := first.token1,
         amount := 3/2, rate := 3/20, swaps := swaps, trade_index := 3 }] := by
  norm_num [tx_swaps_to_trades, hh, hl, h0i, h1i, h0o, h1o, select_quote_assets,
    add_trades_from_swaps, addTradesLoop]

/-- C2 witness: the both-in/both-out split evaluated on the concrete swap. -/
theorem uniswap_both_in_both_out_split_witness :
    tx_swaps_to_trades [swapC2] = .ok
      [{ trade_type := .buy, base_asset := swapC2.token0, quote_asset := swapC2.token0,
         amount := 3, rate := 3/5, swaps := [swapC2], trade_index := 0 },
       { trade_type := .buy, base_asset := swapC2.token0, quote_asset := swapC2.token1,
         amount := 3, rate := 3/10, swaps := [swapC2], trade_index := 1 },
       { trade_type := .buy, base_asset := swapC2.token1, quote_asset := swapC2.token0,
         amount := 3/2, rate := 3/10, swaps := [swapC2], trade_index := 2 },
       { trade_type := .buy, base_asset := swapC2.token1, quote_asset := swapC2.token1,
         amount := 3/2, rate := 3/20, swaps := [swapC2], trade_index := 3 }] :=
  uniswap_both_in_both_out_split [swapC2] swapC2 swapC2 rfl rfl rfl rfl rfl rfl

/-- C4: a non-empty transaction group whose first swap has both inbound amounts zero
while some last-swap outbound amount is positive makes the quote selection take the
`else` fallback `[(token1, 0)]`, and the rate computation divides by the zero sold
amount: the embedded division-error branch is reached. -/
theorem uniswap_zero_division_reachable (swaps : List AMMSwap) (first last : AMMSwap)
    (hh : swaps.head? = some first) (hl : swaps.getLast? = some last)
    (h0i : first.amount0_in = 0) (h1i : first.amount1_in = 0)
    (hout : 0 < last.amount0_out ∨ 0 < last.amount1_out) :
    select_quote_assets first false false = [(first.token1, 0)] ∧
    tx_swaps_to_trades swaps = .error .zeroDivisionError := by
  constructor
  · norm_num [select_quote_assets, h0i, h1i]
  · rcases hout with h | h
    · norm_num [tx_swaps_to_trades, hh, hl, h0i, h1i, h, select_quote_assets,
        add_trades_from_swaps, addTradesLoop]
    · by_cases h0 : 0 < last.amount0_out
      · norm_num [tx_swaps_to_trades, hh, hl, h0i, h1i, h0, select_quote_assets,
          add_trades_from_swaps, addTradesLoop]
      · norm_num [tx_swaps_to_trades, hh, hl, h0i, h1i, h, h0, select_quote_assets,
          add_trades_from_swaps, addTradesLoop]

/-- C4 witness: the zero-division derivation evaluated on the concrete malformed swap. -/
theorem uniswap_zero_division_reachable_witness :
    select_quote_assets swapC4 false false = [(swapC4.token1, 0)] ∧
    tx_swaps_to_trades [swapC4] = .error .zeroDivisionError :=
  uniswap_zero_division_reachable [swapC4] swapC4 swapC4 rfl rfl rfl rfl
    (Or.inr (by norm_num [swapC4]))

/-- C3 (amended): for the swaps `(tx=A, ts=10, log=2)`, `(tx=A, ts=10, log=1)`,
`(tx=B, ts=5, log=0)`, the sort orders transactions most-recent-first and swaps
within a timestamp tie by ascending log index, so the A-group is processed before
the B-group and the A-group's internal order is `[log=1, log=2]`. -/
theorem uniswap_grouping_order (s2 s1 s0 : AMMSwap)
    (h2h : s2.tx_hash = "A") (h2t : s2.timestamp = 10) (h2l : s2.log_index = 2)
    (h1h : s1.tx_hash = "A") (h1t : s1.timestamp = 10) (h1l : s1.log_index = 1)
    (h0h : s0.tx_hash = "B") (h0t : s0.timestamp = 5) (h0l : s0.log_index = 0) :
    sortSwaps [s2, s1, s0] = [s1, s2, s0] ∧
    swapGroups (sortSwaps [s2, s1, s0]) = [[s1, s2], [s0]] := by
  have hsort : sortSwaps [s2, s1, s0] = [s1, s2, s0] := by
    simp [sortSwaps, insertSwap, swapSortPrec, h2t, h2l, h1t, h1l, h0t, h0l]
  refine ⟨hsort, ?_⟩
  rw [hsort]
  simp [swapGroups, groupLoop, h2h, h1h, h0h]

/-- C3 witness: the grouping order evaluated on the concrete swaps. -/
theorem uniswap_grouping_order_witness :
    sortSwaps [swapC3A2, swapC3A1, swapC3B0] = [swapC3A1, swapC3A2, swapC3B0] ∧
    swapGroups (sortSwaps [swapC3A2, swapC3A1, swapC3B0]) =
      [[swapC3A1, swapC3A2], [swapC3B0]] :=
  uniswap_grouping_order swapC3A2 swapC3A1 swapC3B0 rfl rfl rfl rfl rfl rfl rfl rfl rfl

/-- C3 counterexample: on the claim's input the produced structure is the A-group
(internally `[log=1, log=2]`) followed by the B-group, which differs from the
claimed `[B-group, A-group]` with A-group order `[log=2, log=1]`. -/
theorem uniswap_grouping_order_cex :
    swapGroups (sortSwaps [swapC3A2, swapC3A1, swapC3B0]) =
      [[swapC3A1, swapC3A2], [swapC3B0]] ∧
    swapGroups (sortSwaps [swapC3A2, swapC3A1, swapC3B0]) ≠
      [[swapC3B0], [swapC3A2, swapC3A1]] := by
  have hsort : sortSwaps [swapC3A2, swapC3A1, swapC3B0] =
      [swapC3A1, swapC3A2, swapC3B0] := by
    simp [sortSwaps, insertSwap, swapSortPrec, swapC3A2, swapC3A1, swapC3B0]
  constructor
  · rw [hsort]
    simp [swapGroups, groupLoop, swapC3A2, swapC3A1, swapC3B0]
  · rw [hsort]
    simp [swapGroups, groupLoop, swapC3A2, swapC3A1, swapC3B0]

theorem groupLoop_mem_ne_nil (rest : List AMMSwap) :
    ∀ (h : String) (current : List AMMSwap), current ≠ [] →
      ∀ g ∈ groupLoop rest h current, g ≠ [] := by
  induction rest with
  | nil =>
    intro h current hc g hg
    simp only [groupLoop, ne_eq, List.length_eq_zero] at hg
    rw [if_pos hc] at hg
    simpa using (List.mem_singleton.mp hg ▸ hc)
  | cons w rest ih =>
    intro h current hc g hg
    simp only [groupLoop] at hg
    by_cases hw : w.tx_hash ≠ h
    · rw [if_pos hw] at hg
      rcases List.mem_cons.mp hg with hgc | hgr
      · exact hgc ▸ hc
      · exact ih w.tx_hash [w] (by simp) g hgr
    · rw [if_neg hw] at hg
      exact ih w.tx_hash (current ++ [w]) (by simp) g hg

theorem swapGroups_ne_nil (l : List AMMSwap) : ∀ g ∈ swapGroups l, g ≠ [] := by
  cases l with
  | nil => intro g hg; simp [swapGroups] at hg
  | cons s rest => exact groupLoop_mem_ne_nil rest s.tx_hash [s] (by simp)

theorem addTradesLoop_ne_indexError (swaps : List AMMSwap) (bought_amount : ℚ)
    (token : UniAsset) :
    ∀ (qs : List (UniAsset × ℚ)) (trades : List AMMTrade) (idx : Nat),
      addTradesLoop swaps bought_amount token qs trades idx ≠ .error .indexError := by
  intro qs
  induction qs with
  | nil => intro trades idx; simp [addTradesLoop]
  | cons q rest ih =>
    intro trades idx
    obtain ⟨qa, sa⟩ := q
    simp only [addTradesLoop]
    by_cases hs : sa = 0
    · rw [if_pos hs]; simp
    · rw [if_neg hs]; exact ih _ _

theorem add_trades_from_swaps_ne_indexError (swaps : List AMMSwap) (trades : List AMMTrade)
    (both_in : Bool) (quote_assets : List (UniAsset × ℚ)) (token_amount : ℚ)
    (token : UniAsset) (trade_index : Nat) :
    add_trades_from_swaps swaps trades both_in quote_assets token_amount token trade_index ≠
      .error .indexError := by
  unfold add_trades_from_swaps
  exact addTradesLoop_ne_indexError _ _ _ _ _ _

theorem tx_swaps_to_trades_ne_indexError (g : List AMMSwap) (hg : g ≠ []) :
    tx_swaps_to_trades g ≠ .error .indexError := by
  obtain ⟨first, hfirst⟩ := Option.isSome_iff_exists.mp (List.head?_isSome.mpr hg)
  obtain ⟨last, hlast⟩ := Option.isSome_iff_exists.mp (List.getLast?_isSome.mpr hg)
  unfold tx_swaps_to_trades
  simp only [hfirst, hlast]
  split
  next e heq =>
    intro hcontra
    injection hcontra with he
    subst he
    split at heq
    · exact add_trades_from_swaps_ne_indexError _ _ _ _ _ _ _ heq
    · exact Except.noConfusion heq
  next trades heq =>
    split
    · exact add_trades_from_swaps_ne_indexError _ _ _ _ _ _ _
    · simp

theorem extendTrades_ne_indexError (gs : List (List AMMSwap)) (hgs : ∀ g ∈ gs, g ≠ []) :
    ∀ acc : List AMMTrade, extendTrades gs acc ≠ .error .indexError := by
  induction gs with
  | nil => intro acc; simp [extendTrades]
  | cons g rest ih =>
    intro acc
    simp only [extendTrades]
    cases htx : tx_swaps_to_trades g with
    | error e =>
      intro hcontra
      injection hcontra with he
      subst he
      exact tx_swaps_to_trades_ne_indexError g (hgs g (List.mem_cons_self g rest)) htx
    | ok ts => exact ih (fun x hx => hgs x (List.mem_cons_of_mem g hx)) (acc ++ ts)

/-- C10: `swaps_to_trades` returns the empty trade list on the empty input without
deriving any group, every group it forms from a non-empty input is non-empty, and
consequently the `swaps[0]` / `swaps[-1]` accesses inside `_tx_swaps_to_trades` are
always in bounds when reached through `swaps_to_trades`: the embedded index-error
branch is unreachable for every input. -/
theorem uniswap_swaps_to_trades_total :
    swaps_to_trades [] = .ok [] ∧
    (∀ swaps : List AMMSwap, swaps ≠ [] → ∀ g ∈ swapGroups (sortSwaps swaps), g ≠ []) ∧
    (∀ swaps : List AMMSwap, swaps_to_trades swaps ≠ .error .indexError) := by
  refine ⟨rfl, ?_, ?_⟩
  · intro swaps _ g hg
    exact swapGroups_ne_nil _ g hg
  · intro swaps
    unfold swaps_to_trades
    split
    · simp
    · exact extendTrades_ne_indexError _ (swapGroups_ne_nil _) []

/-- C10 witness: the grouping totality facts instantiated on a concrete swap list. -/
theorem uniswap_swaps_to_trades_total_witness :
    (∀ g ∈ swapGroups (sortSwaps [swapC10]), g ≠ []) ∧
    swaps_to_trades [swapC10] ≠ .error .indexError :=
  ⟨uniswap_swaps_to_trades_total.2.1 [swapC10] (by simp),
   uniswap_swaps_to_trades_total.2.2 [swapC10]⟩

theorem partitionLoop_min_le (r : RangeStore) :
    ∀ (addrs newA exA : List Addr) (m : Nat),
      (partitionLoop r addrs newA exA m).2.2 ≤ m := by
  intro addrs
  induction addrs with
  | nil => intro newA exA m; simp [partitionLoop]
  | cons w rest ih =>
    intro newA exA m
    simp only [partitionLoop]
    cases r w with
    | none => exact ih _ _ _
    | some rg => exact le_trans (ih _ _ _) (min_le_left _ _)

theorem partitionLoop_mem (r : RangeStore) :
    ∀ (addrs newA exA : List Addr) (m : Nat) (a : Addr),
      (a ∈ addrs ∨ a ∈ newA ∨ a ∈ exA) →
      (a ∈ (partitionLoop r addrs newA exA m).1 ∨ a ∈ (partitionLoop r addrs newA exA m).2.1) := by
  intro addrs
  induction addrs with
  | nil =>
    intro newA exA m a hmem
    rcases hmem with h | h | h
    · simp at h
    · exact Or.inl (by simpa [partitionLoop] using h)
    · exact Or.inr (by simpa [partitionLoop] using h)
  | cons w rest ih =>
    intro newA exA m a hmem
    simp only [partitionLoop]
    cases hr : r w with
    | none =>
      apply ih
      rcases hmem with h | h | h
      · rcases List.mem_cons.mp h with rfl | h2
        · exact Or.inr (Or.inl (by simp))
        · exact Or.inl h2
      · exact Or.inr (Or.inl (List.mem_append_left _ h))
      · exact Or.inr (Or.inr h)
    | some rg =>
      apply ih
      rcases hmem with h | h | h
      · rcases List.mem_cons.mp h with rfl | h2
        · exact Or.inr (Or.inr (by simp))
        · exact Or.inl h2
      · exact Or.inr (Or.inl h)
      · exact Or.inr (Or.inr (List.mem_append_left _ h))

theorem getTradesRangeStep_writes (r : RangeStore) (addrs : List Addr) (t : Nat) (a : Addr)
    (ha : a ∈ addrs) :
    ∃ s, (getTradesRangeStep r addrs t).2 a = some (s, t) := by
  have hmem := partitionLoop_mem r addrs [] [] t a (Or.inl ha)
  have hmin := partitionLoop_min_le r addrs [] [] t
  by_cases hex : a ∈ (partitionLoop r addrs [] [] t).2.1
  · refine ⟨(partitionLoop r addrs [] [] t).2.2, ?_⟩
    have hcond : (partitionLoop r addrs [] [] t).2.1 ≠ [] ∧
        (partitionLoop r addrs [] [] t).2.2 ≤ t :=
      ⟨List.ne_nil_of_mem hex, hmin⟩
    simp only [getTradesRangeStep]
    rw [if_pos hcond]
    simp [hex]
  · have hnew : a ∈ (partitionLoop r addrs [] [] t).1 := hmem.resolve_right hex
    have hne : (partitionLoop r addrs [] [] t).1 ≠ [] := List.ne_nil_of_mem hnew
    refine ⟨0, ?_⟩
    simp only [getTradesRangeStep]
    split
    · simp [hex, hne, hnew]
    · simp [hne, hnew]

theorem runCalls_append (addrs : List Addr) (l1 l2 : List Nat) :
    ∀ r : RangeStore, runCalls addrs r (l1 ++ l2) = runCalls addrs (runCalls addrs r l1) l2 := by
  induction l1 with
  | nil => intro r; rfl
  | cons t rest ih =>
    intro r
    simp only [List.cons_append, runCalls]
    exact ih _

theorem runCalls_take_writes (r : RangeStore) (addrs : List Addr) (a : Addr)
    (ha : a ∈ addrs) (tss : List Nat) (k : Nat) (hk : k < tss.length) :
    ∃ s, runCalls addrs r (tss.take (k + 1)) a = some (s, tss[k]) := by
  have htake : tss.take (k + 1) = tss.take k ++ [tss[k]] := by
    rw [List.take_succ, List.getElem?_eq_getElem hk]
    rfl
  rw [htake, runCalls_append]
  exact getTradesRangeStep_writes _ addrs tss[k] a ha

/-- C5: after a sequence of `_get_trades` calls with non-decreasing `to_timestamp`
values, every commit (new-address batch and existing-address batch alike) writes
`end_ts` equal to the call's `to_timestamp`, so the recorded `end_ts` for any
queried address is non-decreasing across the calls and never exceeds the latest
requested `to_timestamp`. -/
theorem uniswap_range_monotonicity (r : RangeStore) (addrs : List Addr) (a : Addr)
    (tss : List Nat) (i j : Nat) (hi : i < tss.length) (hj : j < tss.length)
    (hij : i ≤ j) (ha : a ∈ addrs) (hmono : tss.Pairwise (· ≤ ·)) (hne : tss ≠ []) :
    ∃ si sj,
      runCalls addrs r (tss.take (i + 1)) a = some (si, tss[i]) ∧
      runCalls addrs r (tss.take (j + 1)) a = some (sj, tss[j]) ∧
      tss[i] ≤ tss[j] ∧ tss[j] ≤ tss.getLast hne := by
  obtain ⟨si, hsi⟩ := runCalls_take_writes r addrs a ha tss i hi
  obtain ⟨sj, hsj⟩ := runCalls_take_writes r addrs a ha tss j hj
  have hget : ∀ {p q : Nat} (hp : p < tss.length) (hq : q < tss.length),
      p ≤ q → tss[p] ≤ tss[q] := by
    intro p q hp hq hpq
    rcases eq_or_lt_of_le hpq with rfl | hlt
    · exact le_refl _
    · exact List.pairwise_iff_get.mp hmono ⟨p, hp⟩ ⟨q, hq⟩ hlt
  refine ⟨si, sj, hsi, hsj, hget hi hj hij, ?_⟩
  rw [List.getLast_eq_getElem tss hne]
  exact hget hj (by omega) (by omega)

/-- C5 witness: two calls with `to_timestamp` 3 then 5 on a fresh store for
address 7 record `end_ts` 3 then 5. -/
theorem uniswap_range_monotonicity_witness :
    ∃ si sj,
      runCalls [7] (fun _ => none) [3] 7 = some (si, 3) ∧
      runCalls [7] (fun _ => none) [3, 5] 7 = some (sj, 5) ∧
      3 ≤ 5 ∧ 5 ≤ 5 :=
  uniswap_range_monotonicity (fun _ => none) [7] 7 [3, 5] 0 1 (by decide) (by decide)
    (by decide) (by decide) (by decide) (by decide)

theorem getTradesRangeStep_calls (r : RangeStore) (addrs : List Addr) (t : Nat) :
    (getTradesRangeStep r addrs t).1 =
      (if (partitionLoop r addrs [] [] t).1 ≠ [] then
         [FetchCall.mk (partitionLoop r addrs [] [] t).1 0 t]
       else []) ++
      (if (partitionLoop r addrs [] [] t).2.1 ≠ [] then
         [FetchCall.mk (partitionLoop r addrs [] [] t).2.1 (partitionLoop r addrs [] [] t).2.2 t]
       else []) := by
  have hmin := partitionLoop_min_le r addrs [] [] t
  simp only [getTradesRangeStep]
  by_cases hex : (partitionLoop r addrs [] [] t).2.1 ≠ []
  · rw [if_pos ⟨hex, hmin⟩]
    by_cases hnew : (partitionLoop r addrs [] [] t).1 ≠ []
    · simp [hex, hnew]
    · simp [hex, hnew]
  · rw [if_neg (fun hand => hex hand.1)]
    by_cases hnew : (partitionLoop r addrs [] [] t).1 ≠ []
    · simp [hex, hnew]
    · simp [hex, hnew]

/-- C6 (amended/corrected): `min_end_ts` is initialised to `to_timestamp` and only
lowered by `min`, so the guard `min_end_ts <= to_timestamp` always holds and the
existing-batch fetch is issued whenever existing addresses are present — also when
`to_timestamp` is below every persisted `end_ts`, in which case the window
degenerates to `[to_timestamp, to_timestamp]`.  Every issued fetch satisfies
`start_ts <= end_ts = to_timestamp`, so no negative-width window is fetched. -/
theorem uniswap_existing_fetch_window (r : RangeStore) (addrs : List Addr) (t : Nat)
    (c : FetchCall) (hc : c ∈ (getTradesRangeStep r addrs t).1) :
    (partitionLoop r addrs [] [] t).2.2 ≤ t ∧ c.start_ts ≤ c.end_ts ∧ c.end_ts = t ∧
    ((partitionLoop r addrs [] [] t).2.1 ≠ [] →
      FetchCall.mk (partitionLoop r addrs [] [] t).2.1 (partitionLoop r addrs [] [] t).2.2 t ∈
        (getTradesRangeStep r addrs t).1) := by
  have hmin := partitionLoop_min_le r addrs [] [] t
  rw [getTradesRangeStep_calls] at hc
  have hcfacts : c.start_ts ≤ c.end_ts ∧ c.end_ts = t := by
    rcases List.mem_append.mp hc with h1 | h2
    · split at h1
      · rcases List.mem_singleton.mp h1 with rfl
        exact ⟨Nat.zero_le t, rfl⟩
      · simp at h1
    · split at h2
      · rcases List.mem_singleton.mp h2 with rfl
        exact ⟨hmin, rfl⟩
      · simp at h2
  refine ⟨hmin, hcfacts.1, hcfacts.2, ?_⟩
  intro hex
  rw [getTradesRangeStep_calls]
  exact List.mem_append_right _ (by rw [if_pos hex]; exact List.mem_singleton_self _)

/-- C6 witness: the guard facts evaluated on the concrete store `rC6` at
`to_timestamp = 5`, where the issued existing-batch fetch is `([7], 5, 5)`. -/
theorem uniswap_existing_fetch_window_witness :
    (partitionLoop rC6 [7] [] [] 5).2.2 ≤ 5 ∧ (5 : Nat) ≤ 5 ∧ (5 : Nat) = 5 ∧
    ((partitionLoop rC6 [7] [] [] 5).2.1 ≠ [] →
      FetchCall.mk (partitionLoop rC6 [7] [] [] 5).2.1 (partitionLoop rC6 [7] [] [] 5).2.2 5 ∈
        (getTradesRangeStep rC6 [7] 5).1) :=
  uniswap_existing_fetch_window rC6 [7] 5 ⟨[7], 5, 5⟩
    (by simp [getTradesRangeStep, partitionLoop, rC6])

/-- C6 counterexample: with the persisted range `(0, 100)` for address `7` and
`to_timestamp = 5 < 100` (the minimum persisted `end_ts`), an existing-batch fetch
IS issued, with the degenerate window `[5, 5]` — the claim that no fetch is issued
in this situation is false. -/
theorem uniswap_negative_width_guard_cex :
    rC6 7 = some (0, 100) ∧ 5 < 100 ∧
    (getTradesRangeStep rC6 [7] 5).1 =
      [{ addresses := [7], start_ts := 5, end_ts := 5 }] := by
  refine ⟨rfl, by norm_num, ?_⟩
  simp [getTradesRangeStep, partitionLoop, rC6]

theorem paginateFold_spec {Rec St : Type} (L : Nat) (fetch : Nat → List Rec)
    (upd : St → Rec → St) :
    ∀ (n start fuel : Nat) (s : St), n < fuel →
      (∀ i < n, L ≤ (fetch (start + i * L)).length) →
      (fetch (start + n * L)).length < L →
      paginateFold L fetch upd fuel start s =
        some ((((List.range (n + 1)).map (fun i => fetch (start + i * L))).flatten).foldl
          upd s) := by
  intro n
  induction n with
  | zero =>
    intro start fuel s hfuel hfull hshort
    cases fuel with
    | zero => omega
    | succ f =>
      simp only [paginateFold]
      rw [if_pos (by simpa using hshort)]
      simp [List.range_succ]
  | succ n ih =>
    intro start fuel s hfuel hfull hshort
    cases fuel with
    | zero => omega
    | succ f =>
      simp only [paginateFold]
      have hfull0 : L ≤ (fetch start).length := by simpa using hfull 0 (by omega)
      rw [if_neg (by omega)]
      have hfull2 : ∀ i < n, L ≤ (fetch (start + L + i * L)).length := by
        intro i hi
        have h := hfull (i + 1) (by omega)
        have harith : start + (i + 1) * L = start + L + i * L := by ring
        rwa [harith] at h
      have hshort2 : (fetch (start + L + n * L)).length < L := by
        have harith : start + (n + 1) * L = start + L + n * L := by ring
        rwa [harith] at hshort
      rw [ih (start + L) f (List.foldl upd s (fetch start)) (by omega) hfull2 hshort2]
      have hrange : List.range (n + 1 + 1) = 0 :: (List.range (n + 1)).map Nat.succ :=
        List.range_succ_eq_map (n + 1)
      rw [hrange]
      simp only [List.map_cons, List.map_map, List.flatten_cons, List.foldl_append,
        Nat.zero_mul, Nat.add_zero]
      congr 2
      apply congrArg List.flatten
      apply List.map_congr_left
      intro i _
      simp only [Function.comp_apply, Nat.succ_eq_add_one]
      congr 1
      ring

theorem paginateFold_none {Rec St : Type} (L : Nat) (fetch : Nat → List Rec)
    (upd : St → Rec → St) :
    ∀ (fuel start : Nat) (s : St), (∀ i, L ≤ (fetch (start + i * L)).length) →
      paginateFold L fetch upd fuel start s = none := by
  intro fuel
  induction fuel with
  | zero => intro start s _; rfl
  | succ f ih =>
    intro start s h
    simp only [paginateFold]
    have h0 : L ≤ (fetch start).length := by simpa using h 0
    rw [if_neg (by omega)]
    apply ih
    intro i
    have harith : start + L + i * L = start + (i + 1) * L := by ring
    rw [harith]
    exact h (i + 1)

/-- C7: in each of the three pagination loops (`_get_balances_graph`,
`_get_trades_graph_for_address`, `_get_unknown_asset_price_graph`) the offset starts
at 0 and advances by exactly `GRAPH_QUERY_LIMIT` per fetch, every record of every
fetched page is folded into the accumulator in order, the loop stops exactly on the
first page strictly shorter than `GRAPH_QUERY_LIMIT`, and under the assumption that
such a short page exists the loop is total (returns a value for sufficient fuel);
if no page is ever short, the loop never terminates (no fuel suffices). -/
theorem uniswap_pagination_loops :
    (∀ (fetch : Nat → List LPPositionRecord) (n fuel : Nat),
      (∀ i < n, GRAPH_QUERY_LIMIT ≤ (fetch (i * GRAPH_QUERY_LIMIT)).length) →
      (fetch (n * GRAPH_QUERY_LIMIT)).length < GRAPH_QUERY_LIMIT → n < fuel →
      get_balances_graph_loop fetch fuel =
        some ((((List.range (n + 1)).map (fun i => fetch (i * GRAPH_QUERY_LIMIT))).flatten).foldl
          balancesUpd
          { address_balances := fun _ => [], known_assets := ∅, unknown_assets := ∅ })) ∧
    (∀ (fetch : Nat → List (List AMMSwap)) (n fuel : Nat),
      (∀ i < n, GRAPH_QUERY_LIMIT ≤ (fetch (i * GRAPH_QUERY_LIMIT)).length) →
      (fetch (n * GRAPH_QUERY_LIMIT)).length < GRAPH_QUERY_LIMIT → n < fuel →
      get_trades_graph_for_address_loop fetch fuel =
        some ((((List.range (n + 1)).map (fun i => fetch (i * GRAPH_QUERY_LIMIT))).flatten).foldl
          tradesUpd (.ok []))) ∧
    (∀ (fetch : Nat → List (Addr × ℚ)) (n fuel : Nat),
      (∀ i < n, GRAPH_QUERY_LIMIT ≤ (fetch (i * GRAPH_QUERY_LIMIT)).length) →
      (fetch (n * GRAPH_QUERY_LIMIT)).length < GRAPH_QUERY_LIMIT → n < fuel →
      get_unknown_asset_price_graph_loop fetch fuel =
        some ((((List.range (n + 1)).map (fun i => fetch (i * GRAPH_QUERY_LIMIT))).flatten).foldl
          priceUpd (fun _ => none))) ∧
    (∀ (fetch : Nat → List LPPositionRecord) (fuel : Nat),
      (∀ i, GRAPH_QUERY_LIMIT ≤ (fetch (i * GRAPH_QUERY_LIMIT)).length) →
      get_balances_graph_loop fetch fuel = none) ∧
    (∀ (fetch : Nat → List (List AMMSwap)) (fuel : Nat),
      (∀ i, GRAPH_QUERY_LIMIT ≤ (fetch (i * GRAPH_QUERY_LIMIT)).length) →
      get_trades_graph_for_address_loop fetch fuel = none) ∧
    (∀ (fetch : Nat → List (Addr × ℚ)) (fuel : Nat),
      (∀ i, GRAPH_QUERY_LIMIT ≤ (fetch (i * GRAPH_QUERY_LIMIT)).length) →
      get_unknown_asset_price_graph_loop fetch fuel = none) := by
  refine ⟨?_, ?_, ?_, ?_, ?_, ?_⟩
  · intro fetch n fuel h1 h2 h3
    have h := paginateFold_spec GRAPH_QUERY_LIMIT fetch balancesUpd n 0 fuel
      { address_balances := fun _ => [], known_assets := ∅, unknown_assets := ∅ }
      h3 (by intro i hi; simpa using h1 i hi) (by simpa using h2)
    unfold get_balances_graph_loop
    simpa using h
  · intro fetch n fuel h1 h2 h3
    have h := paginateFold_spec GRAPH_QUERY_LIMIT fetch tradesUpd n 0 fuel (.ok [])
      h3 (by intro i hi; simpa using h1 i hi) (by simpa using h2)
    unfold get_trades_graph_for_address_loop
    simpa using h
  · intro fetch n fuel h1 h2 h3
    have h := paginateFold_spec GRAPH_QUERY_LIMIT fetch priceUpd n 0 fuel (fun _ => none)
      h3 (by intro i hi; simpa using h1 i hi) (by simpa using h2)
    unfold get_unknown_asset_price_graph_loop
    simpa using h
  · intro fetch fuel h
    unfold get_balances_graph_loop
    exact paginateFold_none _ _ _ _ _ _ (by intro i; simpa using h i)
  · intro fetch fuel h
    unfold get_trades_graph_for_address_loop
    exact paginateFold_none _ _ _ _ _ _ (by intro i; simpa using h i)
  · intro fetch fuel h
    unfold get_unknown_asset_price_graph_loop
    exact paginateFold_none _ _ _ _ _ _ (by intro i; simpa using h i)

/-- C7 witness: the balances pagination loop on a source whose first page is empty
terminates after one fetch with the initial accumulator. -/
theorem uniswap_pagination_loops_witness :
    get_balances_graph_loop (fun _ => []) 1 =
      some ((((List.range 1).map
          (fun _ => ([] : List LPPositionRecord))).flatten).foldl balancesUpd
        { address_balances := fun _ => [], known_assets := ∅, unknown_assets := ∅ }) :=
  uniswap_pagination_loops.1 (fun _ => []) 0 1
    (fun i hi => absurd hi (Nat.not_lt_zero i))
    (by norm_num [GRAPH_QUERY_LIMIT]) (by norm_num)

theorem get_known_asset_price_unknown_mono :
    ∀ (known : List EthereumToken) (unknown : Finset UnknownEthereumToken)
      (pq : EthereumToken → ℚ) (u : UnknownEthereumToken), u ∈ unknown →
      u ∈ (get_known_asset_price known unknown pq).2 := by
  intro known
  induction known with
  | nil => intro unknown pq u hu; simpa [get_known_asset_price] using hu
  | cons t rest ih =>
    intro unknown pq u hu
    simp only [get_known_asset_price]
    by_cases h : pq t ≠ 0
    · rw [if_pos h]
      exact ih unknown pq u hu
    · rw [if_neg h]
      exact ih _ pq u (Finset.mem_insert_of_mem hu)

theorem get_known_asset_price_adds_unknown :
    ∀ (known : List EthereumToken) (unknown : Finset UnknownEthereumToken)
      (pq : EthereumToken → ℚ) (t : EthereumToken), t ∈ known → pq t = 0 →
      unknownize t ∈ (get_known_asset_price known unknown pq).2 := by
  intro known
  induction known with
  | nil => intro unknown pq t ht; simp at ht
  | cons w rest ih =>
    intro unknown pq t ht hzero
    simp only [get_known_asset_price]
    rcases List.mem_cons.mp ht with rfl | hrest
    · rw [if_neg (by simpa using hzero)]
      exact get_known_asset_price_unknown_mono rest _ pq (unknownize t)
        (Finset.mem_insert_self _ _)
    · by_cases h : pq w ≠ 0
      · rw [if_pos h]
        exact ih unknown pq t hrest hzero
      · rw [if_neg h]
        exact ih _ pq t hrest hzero

theorem get_known_asset_price_keys :
    ∀ (known : List EthereumToken) (unknown : Finset UnknownEthereumToken)
      (pq : EthereumToken → ℚ),
      (get_known_asset_price known unknown pq).1.map Prod.fst =
        (known.filter (fun t => decide (pq t ≠ 0))).map EthereumToken.ethereum_address := by
  intro known
  induction known with
  | nil => intro unknown pq; simp [get_known_asset_price]
  | cons t rest ih =>
    intro unknown pq
    simp only [get_known_asset_price, List.filter]
    by_cases h : pq t ≠ 0
    · rw [if_pos h]
      simp only [decide_eq_true h, List.map_cons]
      exact congrArg (t.ethereum_address :: ·) (ih unknown pq)
    · rw [if_neg h]
      rw [decide_eq_false h]
      exact ih _ pq

/-- C8 (amended/corrected): after `_get_known_asset_price` runs, a known asset whose
primary price query returns exactly zero is added to `unknown_assets` (rebuilt as an
`UnknownEthereumToken` with the same address) and omitted from the returned price
map, whose keys are exactly the addresses of the non-zero-priced known assets; the
pre-existing unknown assets are preserved.  The `known_assets` set itself is never
modified, so the reclassified asset's address appears in both sets after the run;
it is only "no longer counted as known" in the sense of having no price-map entry. -/
theorem uniswap_reclassification (known : List EthereumToken)
    (unknown : Finset UnknownEthereumToken) (pq : EthereumToken → ℚ) :
    (∀ t ∈ known, pq t = 0 → unknownize t ∈ (get_known_asset_price known unknown pq).2) ∧
    ((get_known_asset_price known unknown pq).1.map Prod.fst =
      (known.filter (fun t => decide (pq t ≠ 0))).map EthereumToken.ethereum_address) ∧
    (∀ u ∈ unknown, u ∈ (get_known_asset_price known unknown pq).2) :=
  ⟨fun t ht hzero => get_known_asset_price_adds_unknown known unknown pq t ht hzero,
   get_known_asset_price_keys known unknown pq,
   fun u hu => get_known_asset_price_unknown_mono known unknown pq u hu⟩

/-- C8 witness: the zero-priced token `tokC8` lands in the unknown set, and a
pre-existing unknown token survives the pass. -/
theorem uniswap_reclassification_witness :
    unknownize tokC8 ∈ (get_known_asset_price [tokC8] ∅ (fun _ => 0)).2 ∧
    unkC8 ∈ (get_known_asset_price [tokC8] {unkC8} (fun _ => 0)).2 :=
  ⟨(uniswap_reclassification [tokC8] ∅ (fun _ => 0)).1 tokC8 (by simp) rfl,
   (uniswap_reclassification [tokC8] {unkC8} (fun _ => 0)).2.2 unkC8 (by simp)⟩

/-- C8 counterexample: with `known_assets = {tokC8}` and an always-zero primary
price, the address of `tokC8` ends up both among the known assets' addresses (the
code never removes anything from `known_assets`) and among the addresses of the
resulting `unknown_assets` — the claimed at-most-one-set exclusivity fails. -/
theorem uniswap_known_unknown_exclusivity_cex :
    tokC8.ethereum_address ∈ [tokC8].map EthereumToken.ethereum_address ∧
    tokC8.ethereum_address ∈
      (get_known_asset_price [tokC8] ∅ (fun _ => 0)).2.image
        UnknownEthereumToken.ethereum_address := by
  constructor
  · simp
  · simp [get_known_asset_price, unknownize, tokC8]

theorem foldl_add_usd (l : List LiquidityPoolAsset) :
    ∀ init : ℚ, l.foldl (fun acc a => acc + a.user_balance.usd_value) init =
      init + (l.map (fun a => a.user_balance.usd_value)).sum := by
  induction l with
  | nil => intro init; simp
  | cons a rest ih =>
    intro init
    simp only [List.foldl_cons, List.map_cons, List.sum_cons, ih]
    ring

/-- C9: after `_update_assets_prices_in_address_balances` runs, every pool's
`user_balance.usd_value` equals the sum of its assets' `user_balance.usd_value`
fields; per asset, a non-zero price looked up in the known map (falling back to the
unknown map) replaces `usd_price` and sets `usd_value = amount * price` (leaving
the amount untouched), while a zero lookup leaves the asset entirely unchanged. -/
theorem uniswap_pool_usd_aggregation (balances : List (Addr × List LiquidityPool))
    (known unknown : Addr → Option ℚ) (entry : Addr × List LiquidityPool)
    (he : entry ∈ update_assets_prices_in_address_balances balances known unknown)
    (lp : LiquidityPool) (hlp : lp ∈ entry.2) :
    lp.user_balance.usd_value = (lp.assets.map (fun a => a.user_balance.usd_value)).sum ∧
    (∀ a : LiquidityPoolAsset,
      (lookupAssetPrice known unknown a.asset.ethereum_address = 0 →
        updateLPAsset known unknown a = a) ∧
      (lookupAssetPrice known unknown a.asset.ethereum_address ≠ 0 →
        (updateLPAsset known unknown a).user_balance.usd_value =
          a.user_balance.amount * lookupAssetPrice known unknown a.asset.ethereum_address ∧
        (updateLPAsset known unknown a).user_balance.amount = a.user_balance.amount ∧
        (updateLPAsset known unknown a).usd_price =
          lookupAssetPrice known unknown a.asset.ethereum_address)) := by
  constructor
  · obtain ⟨e0, _, heq⟩ := List.mem_map.mp he
    obtain rfl := heq.symm
    obtain ⟨lp0, _, rfl⟩ := List.mem_map.mp hlp
    simp [updateLP, foldl_add_usd]
  · intro a
    constructor
    · intro h
      simp [updateLPAsset, h]
    · intro h
      simp [updateLPAsset, h]

/-- C9 witness: the aggregation invariant and the non-zero-price update rule
evaluated on the concrete pool `poolC9` with known price 2 for its asset. -/
theorem uniswap_pool_usd_aggregation_witness :
    (updateLP knownC9 (fun _ => none) poolC9).user_balance.usd_value =
      ((updateLP knownC9 (fun _ => none) poolC9).assets.map
        (fun a => a.user_balance.usd_value)).sum ∧
    (updateLPAsset knownC9 (fun _ => none) assetC9).user_balance.usd_value =
      assetC9.user_balance.amount *
        lookupAssetPrice knownC9 (fun _ => none) assetC9.asset.ethereum_address :=
  ⟨(uniswap_pool_usd_aggregation [(1, [poolC9])] knownC9 (fun _ => none)
      (1, [poolC9].map (updateLP knownC9 (fun _ => none)))
      (by simp [update_assets_prices_in_address_balances])
      (updateLP knownC9 (fun _ => none) poolC9) (by simp)).1,
   (((uniswap_pool_usd_aggregation [(1, [poolC9])] knownC9 (fun _ => none)
      (1, [poolC9].map (updateLP knownC9 (fun _ => none)))
      (by simp [update_assets_prices_in_address_balances])
      (updateLP knownC9 (fun _ => none) poolC9) (by simp)).2 assetC9).2
     (by norm_num [lookupAssetPrice, knownC9, assetC9, UniAsset.ethereum_address])).1⟩
